import Mathlib

/-
Shallow embedding of the Game of Life grid engine (src/src/board.rs).

Modelling conventions:
- Rust i8 values (board sizes, coordinates, cell states) are Lean Int; i8
  range constraints (-128 ≤ v ≤ 127) appear as hypotheses where they matter.
- Cell states are the i8 values 0 (dead) and 1 (alive), as in the source.
- Rust u64 population arithmetic wraps modulo 2^64 (release-profile
  semantics); increments and decrements are written with an explicit
  % 2^64.
- Vec indexing v[i as usize] with an i8 index i sign-extends i to 64 bits;
  toUsize models that cast.  An out-of-range index panics in Rust; the one
  operation whose panic behaviour a claim depends on (player_toggle_cell)
  is therefore modelled with Option, none denoting the panic.
- In-place writes board[y][x] = v are modelled by set2; List.set is the
  identity out of range, matching Rust only on boards whose row/column
  counts agree with size_x/size_y, which the WF predicate captures and the
  theorems hypothesise.
-/

/-- Rust cast i8 -> usize: sign-extend to 64 bits, reinterpret unsigned. -/
def toUsize (i : Int) : Nat := (i % (2:Int) ^ 64).toNat

/-- Rust u64 modulus. -/
def u64Mod : Nat := 2 ^ 64

abbrev Cells := List (List Int)

/-- Read g[y][x] totally; the default 0 is never reached under WF + in-range. -/
def getD2 (g : Cells) (y x : Nat) : Int := (g.getD y []).getD x 0

/-- Write g[y][x] := v; identity when out of range (Rust would panic there). -/
def set2 (g : Cells) (y x : Nat) (v : Int) : Cells :=
  g.set y ((g.getD y []).set x v)

/-- Read a cell at i8 coordinates (x, y), via the Rust usize casts. -/
def cellAt (g : Cells) (x y : Int) : Int := getD2 g (toUsize y) (toUsize x)

/-- Number of cells equal to 1 in one row. -/
def countRow (row : List Int) : Nat := (row.filter (fun c => decide (c = 1))).length

/-- Number of cells equal to 1 in the whole cell array. -/
def countAlive (g : Cells) : Nat := (g.map countRow).sum

/-- Row-major list of (y, x) index pairs, the order of the nested
for y in 0..size_y, for x in 0..size_x loops. -/
def pairs (ny nx : Nat) : List (Nat × Nat) :=
  (List.range ny).flatMap (fun y => (List.range nx).map (fun x => (y, x)))

/-- Board.make_board: size_y rows of size_x dead (0) cells; the empty list
when a dimension is non-positive (the Rust loop ranges are then empty). -/
def make_board (size_x size_y : Int) : Cells :=
  List.replicate size_y.toNat (List.replicate size_x.toNat 0)

/-- Board struct of src/src/board.rs. -/
structure Board where
  size_x : Int
  size_y : Int
  board : Cells
  next_board : Cells
  population : Nat
deriving DecidableEq, Repr

/-- Board::new: no validation of the dimensions takes place. -/
def Board.new (sx sy : Int) : Board :=
  { size_x := sx
    size_y := sy
    board := make_board sx sy
    next_board := make_board sx sy
    population := 0 }

/-- Board::player_toggle_cell.  The Rust code indexes
self.board[board_y as usize][board_x as usize]; an out-of-range index
panics, modelled as none.  A dead (0) cell becomes 1 and population is
incremented; any other cell value becomes 0 and population is decremented
(u64 wrapping subtraction is addition of 2^64 - 1 mod 2^64). -/
def player_toggle_cell (b : Board) (x y : Int) : Option Board :=
  match (b.board.get? (toUsize y)).bind (fun row => row.get? (toUsize x)) with
  | none => none
  | some cell =>
    if cell = 0 then
      some { b with
              board := set2 b.board (toUsize y) (toUsize x) 1
              population := (b.population + 1) % u64Mod }
    else
      some { b with
              board := set2 b.board (toUsize y) (toUsize x) 0
              population := (b.population + (u64Mod - 1)) % u64Mod }

/-- Board::clear_board: write 0 to every (y, x) with 0 ≤ y < size_y,
0 ≤ x < size_x, then set population to 0. -/
def clear_board (b : Board) : Board :=
  { b with
    board := (pairs b.size_y.toNat b.size_x.toNat).foldl
      (fun g yx => set2 g yx.1 yx.2 0) b.board
    population := 0 }

/-- Offsets (dx, dy) visited by the two nested loops of
Board::get_neighbour_count (dy outer, dx inner, (0,0) skipped). -/
def neighbourOffsets : List (Int × Int) :=
  [(-1, -1), (0, -1), (1, -1), (-1, 0), (1, 0), (-1, 1), (0, 1), (1, 1)]

/-- Board::get_neighbour_count: sum the cell values at the in-bounds
neighbour offsets of (x, y).  The Rust accumulator is an i8; the sum of at
most 8 binary cells is at most 8, so it never overflows and plain Int
addition is its denotation (theorems hypothesise binary cells). -/
def get_neighbour_count (b : Board) (x y : Int) : Int :=
  neighbourOffsets.foldl
    (fun acc d =>
      let nx := x + d.1
      let ny := y + d.2
      if 0 ≤ nx ∧ nx < b.size_x ∧ 0 ≤ ny ∧ ny < b.size_y then
        acc + cellAt b.board nx ny
      else acc)
    0

/-- Next state of the cell at (x, y) per the tick rules in Board::tick. -/
def nextCell (b : Board) (x y : Int) : Int :=
  let n := get_neighbour_count b x y
  let cur := cellAt b.board x y
  if cur = 1 then
    if n = 2 ∨ n = 3 then 1 else 0
  else
    if n = 3 then 1 else 0

/-- Board::tick: for each (y, x) in loop order write nextCell into
next_board and, when the value just written back-reads as 1, increment
new_population (a u64; it counts at most 127 * 127 cells for i8-sized
boards, so the increment never wraps and Nat + 1 is its denotation).
Finally the two buffers are swapped and population is replaced. -/
def tick (b : Board) : Board :=
  let res := (pairs b.size_y.toNat b.size_x.toNat).foldl
    (fun (acc : Cells × Nat) yx =>
      let nb := set2 acc.1 yx.1 yx.2 (nextCell b (yx.2 : Int) (yx.1 : Int))
      (nb, if getD2 nb yx.1 yx.2 = 1 then acc.2 + 1 else acc.2))
    (b.next_board, 0)
  { b with board := res.1, next_board := b.board, population := res.2 }

/-- Every cell value is 0 or 1. -/
def Binary (g : Cells) : Prop := ∀ row ∈ g, ∀ c ∈ row, c = 0 ∨ c = 1

/-- Representation invariant: the size fields are i8 values and both
buffers are rectangular arrays whose dimensions agree with them. -/
def WF (b : Board) : Prop :=
  -128 ≤ b.size_x ∧ b.size_x ≤ 127 ∧ -128 ≤ b.size_y ∧ b.size_y ≤ 127 ∧
  b.board.length = b.size_y.toNat ∧
  (∀ row ∈ b.board, row.length = b.size_x.toNat) ∧
  b.next_board.length = b.size_y.toNat ∧
  (∀ row ∈ b.next_board, row.length = b.size_x.toNat)

/-- Specification-level neighbour count: the number of offsets
(dx, dy) ∈ {-1,0,1}^2 minus (0,0) whose target lies in bounds and holds an
alive cell.  Written from the spec for comparison with
get_neighbour_count. -/
def specNeighbourCount (b : Board) (x y : Int) : Nat :=
  (neighbourOffsets.filter (fun d =>
    decide (0 ≤ x + d.1 ∧ x + d.1 < b.size_x ∧ 0 ≤ y + d.2 ∧ y + d.2 < b.size_y ∧
      cellAt b.board (x + d.1) (y + d.2) = 1))).length

/-- Specification-level one-step Life rule: an alive cell survives on
exactly 2 or 3 neighbours, a dead cell is born on exactly 3.  Written from
the spec for comparison with tick. -/
def lifeRule (alive : Bool) (n : Nat) : Bool :=
  if alive then decide (n = 2 ∨ n = 3) else decide (n = 3)

/-- Grid states reachable from a freshly constructed board by in-bounds
toggles, ticks and clears. -/
inductive Reachable : Board → Prop where
  | new (sx sy : Int) (h1 : -128 ≤ sx) (h2 : sx ≤ 127)
      (h3 : -128 ≤ sy) (h4 : sy ≤ 127) : Reachable (Board.new sx sy)
  | toggle (b b2 : Board) (x y : Int) (hr : Reachable b)
      (hx1 : 0 ≤ x) (hx2 : x < b.size_x) (hy1 : 0 ≤ y) (hy2 : y < b.size_y)
      (ht : player_toggle_cell b x y = some b2) : Reachable b2
  | advance (b : Board) (hr : Reachable b) : Reachable (tick b)
  | clear (b : Board) (hr : Reachable b) : Reachable (clear_board b)

/-- Fully alive 3 x 3 board of the neighbour-count test. -/
def full3 : Board :=
  { size_x := 3
    size_y := 3
    board := [[1, 1, 1], [1, 1, 1], [1, 1, 1]]
    next_board := make_board 3 3
    population := 9 }

/-- The 3 x 3 board with the (0, 0) corner killed. -/
def full3corner : Board :=
  { size_x := 3
    size_y := 3
    board := [[0, 1, 1], [1, 1, 1], [1, 1, 1]]
    next_board := make_board 3 3
    population := 8 }

/-- Horizontal blinker on a 5 x 5 board: row 2, columns 1..3 alive. -/
def blinkerH : Board :=
  { size_x := 5
    size_y := 5
    board := [[0, 0, 0, 0, 0], [0, 0, 0, 0, 0], [0, 1, 1, 1, 0],
              [0, 0, 0, 0, 0], [0, 0, 0, 0, 0]]
    next_board := make_board 5 5
    population := 3 }

/-! Helper lemmas about the usize cast and indexed list updates. -/

lemma toUsize_of_nonneg {i : Int} (h1 : 0 ≤ i) (h2 : i < 2 ^ 64) :
    toUsize i = i.toNat := by
  unfold toUsize; omega

lemma toUsize_large {i : Int} (h1 : -128 ≤ i) (h2 : i < 0) :
    127 < toUsize i := by
  unfold toUsize; omega

lemma getD_set_self {l : List Int} {i : Nat} {v d : Int} (h : i < l.length) :
    (l.set i v).getD i d = v := by
  rw [List.getD_eq_getElem?_getD, List.getElem?_set_self h]
  rfl

lemma getD_set_ne {l : List Int} {i j : Nat} {v d : Int} (h : i ≠ j) :
    (l.set i v).getD j d = l.getD j d := by
  rw [List.getD_eq_getElem?_getD, List.getElem?_set_ne h,
    ← List.getD_eq_getElem?_getD]

lemma getDRow_set_self {g : Cells} {i : Nat} {r : List Int} (h : i < g.length) :
    (g.set i r).getD i [] = r := by
  rw [List.getD_eq_getElem?_getD, List.getElem?_set_self h]
  rfl

lemma getDRow_set_ne {g : Cells} {i j : Nat} {r : List Int} (h : i ≠ j) :
    (g.set i r).getD j [] = g.getD j [] := by
  rw [List.getD_eq_getElem?_getD, List.getElem?_set_ne h,
    ← List.getD_eq_getElem?_getD]

/-- All rows of a cell array have length nx. -/
def rowsLen (g : Cells) (nx : Nat) : Prop := ∀ row ∈ g, row.length = nx

lemma rowsLen_getD {g : Cells} {nx : Nat} (hg : rowsLen g nx) {y : Nat}
    (hy : y < g.length) : (g.getD y []).length = nx := by
  rw [List.getD_eq_getElem g [] hy]
  exact hg _ (List.getElem_mem hy)

lemma length_set2 (g : Cells) (y x : Nat) (v : Int) :
    (set2 g y x v).length = g.length := by
  simp [set2]

lemma rowsLen_set2 {g : Cells} {nx : Nat} (hg : rowsLen g nx) (y x : Nat)
    (v : Int) : rowsLen (set2 g y x v) nx := by
  by_cases hy : y < g.length
  · intro row hrow
    rcases List.mem_or_eq_of_mem_set hrow with h | h
    · exact hg _ h
    · subst h
      rw [List.length_set]
      exact rowsLen_getD hg hy
  · unfold set2
    rw [List.set_eq_of_length_le (by omega)]
    exact hg

lemma getD2_set2_self {g : Cells} {y x : Nat} {v : Int}
    (hy : y < g.length) (hx : x < (g.getD y []).length) :
    getD2 (set2 g y x v) y x = v := by
  unfold getD2 set2
  rw [getDRow_set_self hy, getD_set_self hx]

lemma getD2_set2_ne {g : Cells} {y x y2 x2 : Nat} {v : Int}
    (h : ¬(y = y2 ∧ x = x2)) :
    getD2 (set2 g y x v) y2 x2 = getD2 g y2 x2 := by
  unfold getD2 set2
  by_cases hy : y = y2
  · subst hy
    have hx : x ≠ x2 := fun hc => h ⟨rfl, hc⟩
    by_cases hlt : y < g.length
    · rw [getDRow_set_self hlt, getD_set_ne hx]
    · rw [List.set_eq_of_length_le (by omega)]
  · rw [getDRow_set_ne hy]

lemma binary_set2 {g : Cells} (hg : Binary g) {v : Int} (hv : v = 0 ∨ v = 1)
    (y x : Nat) : Binary (set2 g y x v) := by
  intro row hrow c hc
  rcases List.mem_or_eq_of_mem_set hrow with h | h
  · exact hg _ h _ hc
  · subst h
    rcases List.mem_or_eq_of_mem_set hc with h2 | h2
    · by_cases hy : y < g.length
      · rw [List.getD_eq_getElem g [] hy] at h2
        exact hg _ (List.getElem_mem hy) _ h2
      · rw [List.getD_eq_default _ _ (by omega)] at h2
        simp at h2
    · subst h2; exact hv

/-! Counting lemmas. -/

lemma countRow_set {row : List Int} {x : Nat} {v : Int} (hx : x < row.length) :
    countRow (row.set x v) + (if row.getD x 0 = 1 then 1 else 0)
      = countRow row + (if v = 1 then 1 else 0) := by
  induction row generalizing x with
  | nil => simp at hx
  | cons a l ih =>
    cases x with
    | zero =>
      simp only [List.set, countRow, List.filter_cons, List.getD]
      by_cases ha : a = 1 <;> by_cases hv : v = 1 <;>
        simp [ha, hv, countRow]
    | succ n =>
      simp only [List.set, countRow, List.filter_cons, List.getD_cons_succ]
      have hn : n < l.length := by simpa using hx
      have := ih hn
      by_cases ha : a = 1 <;> simp [ha, countRow] at this ⊢ <;> omega

lemma countAlive_set2 {g : Cells} {y x : Nat} {v : Int}
    (hy : y < g.length) (hx : x < (g.getD y []).length) :
    countAlive (set2 g y x v) + (if getD2 g y x = 1 then 1 else 0)
      = countAlive g + (if v = 1 then 1 else 0) := by
  induction g generalizing y with
  | nil => simp at hy
  | cons r g ih =>
    cases y with
    | zero =>
      simp only [set2, List.set, List.getD_cons_zero, getD2] at hx ⊢
      simp only [countAlive, List.map_cons, List.sum_cons]
      have := countRow_set (v := v) hx
      omega
    | succ n =>
      have hn : n < g.length := by simpa using hy
      simp only [set2, List.set, List.getD_cons_succ, getD2] at hx ⊢
      simp only [countAlive, List.map_cons, List.sum_cons]
      have := ih hn hx
      simp only [set2, getD2, countAlive] at this
      omega

lemma countRow_pos {row : List Int} {x : Nat} (hx : x < row.length)
    (h1 : row.getD x 0 = 1) : 1 ≤ countRow row := by
  rw [List.getD_eq_getElem row 0 hx] at h1
  have hmem : (1 : Int) ∈ row := h1 ▸ List.getElem_mem hx
  have : (1 : Int) ∈ row.filter (fun c => decide (c = 1)) :=
    List.mem_filter.mpr ⟨hmem, by simp⟩
  have := List.ne_nil_of_mem this
  unfold countRow
  exact List.length_pos.mpr this

lemma countAlive_pos {g : Cells} {y x : Nat} (hy : y < g.length)
    (hx : x < (g.getD y []).length) (h1 : getD2 g y x = 1) :
    1 ≤ countAlive g := by
  induction g generalizing y with
  | nil => simp at hy
  | cons r g ih =>
    cases y with
    | zero =>
      simp only [List.getD_cons_zero, getD2] at hx h1
      simp only [countAlive, List.map_cons, List.sum_cons]
      have := countRow_pos hx h1
      omega
    | succ n =>
      have hn : n < g.length := by simpa using hy
      simp only [List.getD_cons_succ, getD2] at hx h1
      simp only [countAlive, List.map_cons, List.sum_cons]
      have := ih hn hx h1
      simp only [countAlive, getD2] at this
      omega

lemma countRow_le (row : List Int) : countRow row ≤ row.length :=
  List.length_filter_le _ _

lemma countAlive_le {g : Cells} {nx : Nat} (hg : rowsLen g nx) :
    countAlive g ≤ g.length * nx := by
  induction g with
  | nil => simp [countAlive]
  | cons r g ih =>
    have hr : r.length = nx := hg _ (by simp)
    have hrest : rowsLen g nx := fun row hrow => hg _ (by simp [hrow])
    have h1 : countRow r ≤ nx := hr ▸ countRow_le r
    have h2 := ih hrest
    simp only [countAlive, List.map_cons, List.sum_cons, List.length_cons]
    have : (g.length + 1) * nx = g.length * nx + nx := by ring
    simp only [countAlive] at h2
    omega

lemma countAlive_replicate (ny nx : Nat) :
    countAlive (List.replicate ny (List.replicate nx (0 : Int))) = 0 := by
  induction ny with
  | zero => simp [countAlive]
  | succ n ih =>
    simp only [List.replicate, countAlive, List.map_cons, List.sum_cons]
    simp only [countAlive] at ih
    rw [ih]
    simp [countRow, List.filter_replicate]

lemma mem_pairs {ny nx : Nat} {yx : Nat × Nat} :
    yx ∈ pairs ny nx ↔ yx.1 < ny ∧ yx.2 < nx := by
  cases yx with
  | mk y x =>
    simp only [pairs, List.mem_flatMap, List.mem_map, List.mem_range]
    constructor
    · rintro ⟨a, ha, b, hb, hab⟩
      cases hab
      exact ⟨ha, hb⟩
    · rintro ⟨hy, hx⟩
      exact ⟨y, hy, x, hx, rfl⟩

/-! Characterisation of the nested write loops. -/

lemma foldl_set2_length (v : Nat → Nat → Int) :
    ∀ (l : List (Nat × Nat)) (g : Cells),
      (l.foldl (fun a yx => set2 a yx.1 yx.2 (v yx.1 yx.2)) g).length
        = g.length := by
  intro l
  induction l with
  | nil => intro g; rfl
  | cons a l ih =>
    intro g
    simp only [List.foldl_cons]
    rw [ih, length_set2]

lemma foldl_set2_rowsLen (v : Nat → Nat → Int) {nx : Nat} :
    ∀ (l : List (Nat × Nat)) (g : Cells), rowsLen g nx →
      rowsLen (l.foldl (fun a yx => set2 a yx.1 yx.2 (v yx.1 yx.2)) g) nx := by
  intro l
  induction l with
  | nil => intro g hg; exact hg
  | cons a l ih =>
    intro g hg
    simp only [List.foldl_cons]
    exact ih _ (rowsLen_set2 hg _ _ _)

lemma getD2_foldl_set2 (v : Nat → Nat → Int) {nx : Nat} :
    ∀ (l : List (Nat × Nat)) (g : Cells) (y x : Nat), rowsLen g nx →
      (∀ yx ∈ l, yx.1 < g.length ∧ yx.2 < nx) →
      getD2 (l.foldl (fun a yx => set2 a yx.1 yx.2 (v yx.1 yx.2)) g) y x
        = if (y, x) ∈ l then v y x else getD2 g y x := by
  intro l
  induction l with
  | nil => intro g y x _ _; simp
  | cons a l ih =>
    intro g y x hg hmem
    have ha := hmem a (by simp)
    have hglen : (set2 g a.1 a.2 (v a.1 a.2)).length = g.length :=
      length_set2 _ _ _ _
    have hrows := rowsLen_set2 (v := v a.1 a.2) hg a.1 a.2
    simp only [List.foldl_cons]
    rw [ih _ y x hrows (fun yx h => hglen ▸ hmem yx (by simp [h]))]
    by_cases hl : (y, x) ∈ l
    · simp [hl]
    · have hrl : (g.getD a.1 []).length = nx := rowsLen_getD hg ha.1
      by_cases heq : (y, x) = a
      · have h1 : a.1 = y := by rw [← heq]
        have h2 : a.2 = x := by rw [← heq]
        subst h1; subst h2
        rw [getD2_set2_self ha.1 (by omega)]
        simp [hl]
      · have hne : ¬(a.1 = y ∧ a.2 = x) := by
          intro hc
          exact heq (by cases a; simp_all)
        rw [getD2_set2_ne hne]
        have : ¬((y, x) = a ∨ (y, x) ∈ l) := by
          intro h; rcases h with h | h
          · exact heq h
          · exact hl h
        simp only [List.mem_cons]
        rw [if_neg this, if_neg hl]

lemma foldl_set2_pairs (v : Nat → Nat → Int) (g : Cells) (ny nx : Nat)
    (hlen : g.length = ny) (hrows : rowsLen g nx) :
    (pairs ny nx).foldl (fun a yx => set2 a yx.1 yx.2 (v yx.1 yx.2)) g
      = (List.range ny).map (fun y => (List.range nx).map (fun x => v y x)) := by
  have hmem : ∀ yx ∈ pairs ny nx, yx.1 < g.length ∧ yx.2 < nx := by
    intro yx h
    have := mem_pairs.mp h
    omega
  have hflen :
      ((pairs ny nx).foldl (fun a yx => set2 a yx.1 yx.2 (v yx.1 yx.2)) g).length
        = ny := by rw [foldl_set2_length, hlen]
  have hfrows := foldl_set2_rowsLen v (pairs ny nx) g hrows
  apply List.ext_getElem
  · rw [hflen]; simp
  · intro n h1 h2
    have hn : n < ny := by rw [hflen] at h1; exact h1
    apply List.ext_getElem
    · have := hfrows _ (List.getElem_mem h1)
      rw [this]
      simp [List.getElem_map, List.getElem_range]
    · intro m hm1 hm2
      have hmnx : m < nx := by
        have := hfrows _ (List.getElem_mem h1)
        rw [this] at hm1
        exact hm1
      have hval := getD2_foldl_set2 v (pairs ny nx) g n m hrows hmem
      rw [if_pos (mem_pairs.mpr ⟨hn, hmnx⟩)] at hval
      have hgd : getD2 ((pairs ny nx).foldl
          (fun a yx => set2 a yx.1 yx.2 (v yx.1 yx.2)) g) n m
          = ((pairs ny nx).foldl
            (fun a yx => set2 a yx.1 yx.2 (v yx.1 yx.2)) g)[n][m] := by
        unfold getD2
        rw [List.getD_eq_getElem _ [] h1, List.getD_eq_getElem _ 0 hm1]
      rw [hgd] at hval
      rw [hval]
      simp [List.getElem_map, List.getElem_range]

/-! Decomposition of the tick loop into its write part and its count part. -/

lemma tick_foldl_split (b : Board) {nx : Nat} :
    ∀ (l : List (Nat × Nat)) (g : Cells) (c : Nat), rowsLen g nx →
      (∀ yx ∈ l, yx.1 < g.length ∧ yx.2 < nx) →
      l.foldl (fun (acc : Cells × Nat) yx =>
          let nb := set2 acc.1 yx.1 yx.2 (nextCell b (yx.2 : Int) (yx.1 : Int))
          (nb, if getD2 nb yx.1 yx.2 = 1 then acc.2 + 1 else acc.2)) (g, c)
        = (l.foldl (fun a yx =>
              set2 a yx.1 yx.2 (nextCell b (yx.2 : Int) (yx.1 : Int))) g,
           c + (l.filter
              (fun yx => decide (nextCell b (yx.2 : Int) (yx.1 : Int) = 1))).length) := by
  intro l
  induction l with
  | nil => intro g c _ _; simp
  | cons a l ih =>
    intro g c hg hmem
    have ha := hmem a (by simp)
    have hrl : (g.getD a.1 []).length = nx := rowsLen_getD hg ha.1
    have hread : getD2 (set2 g a.1 a.2 (nextCell b (a.2 : Int) (a.1 : Int)))
        a.1 a.2 = nextCell b (a.2 : Int) (a.1 : Int) :=
      getD2_set2_self ha.1 (by omega)
    have hglen : (set2 g a.1 a.2 (nextCell b (a.2 : Int) (a.1 : Int))).length
        = g.length := length_set2 _ _ _ _
    have hrows := rowsLen_set2 (v := nextCell b (a.2 : Int) (a.1 : Int)) hg a.1 a.2
    simp only [List.foldl_cons, hread, List.filter_cons]
    rw [ih _ _ hrows (fun yx h => hglen ▸ hmem yx (by simp [h]))]
    by_cases h1 : nextCell b (a.2 : Int) (a.1 : Int) = 1
    · rw [if_pos h1]
      simp only [h1, decide_eq_true_eq, if_pos rfl, List.length_cons]
      simp [Nat.add_assoc, Nat.add_comm 1, Nat.add_left_comm]
    · rw [if_neg h1]
      simp [h1]

lemma countRow_map_range (f : Nat → Int) (nx : Nat) :
    countRow ((List.range nx).map f)
      = ((List.range nx).filter (fun x => decide (f x = 1))).length := by
  unfold countRow
  rw [List.filter_map]
  rw [List.length_map]
  congr 1

lemma countAlive_grid (v : Nat → Nat → Int) (ny nx : Nat) :
    countAlive ((List.range ny).map (fun y => (List.range nx).map (fun x => v y x)))
      = ((pairs ny nx).filter
          (fun yx => decide (v yx.1 yx.2 = 1))).length := by
  induction ny with
  | zero => simp [countAlive, pairs]
  | succ n ih =>
    unfold pairs at ih ⊢
    simp only [List.range_succ, List.map_append, List.flatMap_append,
      List.filter_append, List.length_append]
    unfold countAlive at ih ⊢
    simp only [List.map_append, List.sum_append]
    rw [ih]
    congr 1
    simp only [List.map_cons, List.map_nil, List.sum_cons, List.sum_nil,
      List.flatMap_cons, List.flatMap_nil, List.append_nil]
    rw [countRow_map_range, List.filter_map, List.length_map]
    rfl

/-! Neighbour counting agrees with its specification-level description. -/

lemma cellAt_binary {g : Cells} (hg : Binary g) (x y : Int) :
    cellAt g x y = 0 ∨ cellAt g x y = 1 := by
  unfold cellAt getD2
  by_cases hy : toUsize y < g.length
  · rw [List.getD_eq_getElem g [] hy]
    by_cases hx : toUsize x < (g[toUsize y]).length
    · rw [List.getD_eq_getElem _ 0 hx]
      exact hg _ (List.getElem_mem hy) _ (List.getElem_mem hx)
    · rw [List.getD_eq_default _ _ (by omega)]
      left; rfl
  · rw [List.getD_eq_default g [] (by omega)]
    left; rfl

lemma fold_neighbour (b : Board) (hb : Binary b.board) (x y : Int) :
    ∀ (l : List (Int × Int)) (acc : Int),
      l.foldl (fun acc d =>
          let nx := x + d.1
          let ny := y + d.2
          if 0 ≤ nx ∧ nx < b.size_x ∧ 0 ≤ ny ∧ ny < b.size_y then
            acc + cellAt b.board nx ny
          else acc) acc
        = acc + ((l.filter (fun d =>
            decide (0 ≤ x + d.1 ∧ x + d.1 < b.size_x ∧ 0 ≤ y + d.2 ∧
              y + d.2 < b.size_y ∧
              cellAt b.board (x + d.1) (y + d.2) = 1))).length : Int) := by
  intro l
  induction l with
  | nil => intro acc; simp
  | cons d l ih =>
    intro acc
    simp only [List.foldl_cons, List.filter_cons]
    by_cases hg : 0 ≤ x + d.1 ∧ x + d.1 < b.size_x ∧ 0 ≤ y + d.2 ∧
        y + d.2 < b.size_y
    · rw [if_pos hg]
      rcases cellAt_binary hb (x + d.1) (y + d.2) with h0 | h1
      · have hp : ¬(0 ≤ x + d.1 ∧ x + d.1 < b.size_x ∧ 0 ≤ y + d.2 ∧
            y + d.2 < b.size_y ∧ cellAt b.board (x + d.1) (y + d.2) = 1) := by
          intro hc
          rw [h0] at hc
          exact absurd hc.2.2.2.2 (by norm_num)
        rw [if_neg (by simpa using hp)]
        rw [ih, h0, add_zero]
      · have hp : 0 ≤ x + d.1 ∧ x + d.1 < b.size_x ∧ 0 ≤ y + d.2 ∧
            y + d.2 < b.size_y ∧ cellAt b.board (x + d.1) (y + d.2) = 1 :=
          ⟨hg.1, hg.2.1, hg.2.2.1, hg.2.2.2, h1⟩
        rw [if_pos (by simpa using hp), List.length_cons]
        rw [ih, h1]
        push_cast
        ring
    · rw [if_neg hg]
      have hp : ¬(0 ≤ x + d.1 ∧ x + d.1 < b.size_x ∧ 0 ≤ y + d.2 ∧
          y + d.2 < b.size_y ∧ cellAt b.board (x + d.1) (y + d.2) = 1) := by
        intro hc
        exact hg ⟨hc.1, hc.2.1, hc.2.2.1, hc.2.2.2.1⟩
      rw [if_neg (by simpa using hp)]
      exact ih acc

lemma get_neighbour_count_eq_spec (b : Board) (hb : Binary b.board)
    (x y : Int) :
    get_neighbour_count b x y = (specNeighbourCount b x y : Int) := by
  unfold get_neighbour_count specNeighbourCount
  rw [fold_neighbour b hb x y neighbourOffsets 0, zero_add]

lemma specNeighbourCount_le (b : Board) (x y : Int) :
    specNeighbourCount b x y ≤ 8 := by
  unfold specNeighbourCount
  have := List.length_filter_le (fun d =>
    decide (0 ≤ x + d.1 ∧ x + d.1 < b.size_x ∧ 0 ≤ y + d.2 ∧
      y + d.2 < b.size_y ∧ cellAt b.board (x + d.1) (y + d.2) = 1))
    neighbourOffsets
  simpa [neighbourOffsets] using this

lemma nextCell_binary (b : Board) (x y : Int) :
    nextCell b x y = 0 ∨ nextCell b x y = 1 := by
  unfold nextCell
  simp only []
  split <;> split <;> simp

/-! Characterisation of tick, clear_board and player_toggle_cell on
well-formed boards. -/

lemma tick_res (b : Board) (hwf : WF b) :
    (pairs b.size_y.toNat b.size_x.toNat).foldl
      (fun (acc : Cells × Nat) yx =>
        let nb := set2 acc.1 yx.1 yx.2 (nextCell b (yx.2 : Int) (yx.1 : Int))
        (nb, if getD2 nb yx.1 yx.2 = 1 then acc.2 + 1 else acc.2))
      (b.next_board, 0)
    = ((List.range b.size_y.toNat).map (fun (y : Nat) =>
        (List.range b.size_x.toNat).map (fun (x : Nat) => nextCell b (x : Int) (y : Int))),
       ((pairs b.size_y.toNat b.size_x.toNat).filter
         (fun yx => decide (nextCell b (yx.2 : Int) (yx.1 : Int) = 1))).length) := by
  obtain ⟨h1, h2, h3, h4, h5, h6, h7, h8⟩ := hwf
  have hmem : ∀ yx ∈ pairs b.size_y.toNat b.size_x.toNat,
      yx.1 < b.next_board.length ∧ yx.2 < b.size_x.toNat := by
    intro yx h
    have := mem_pairs.mp h
    omega
  rw [tick_foldl_split b _ _ 0 h8 hmem]
  rw [foldl_set2_pairs (fun (y x : Nat) => nextCell b (x : Int) (y : Int)) b.next_board
    _ _ h7 h8]
  rw [Nat.zero_add]

lemma tick_board (b : Board) (hwf : WF b) :
    (tick b).board = (List.range b.size_y.toNat).map (fun (y : Nat) =>
      (List.range b.size_x.toNat).map (fun (x : Nat) => nextCell b (x : Int) (y : Int))) := by
  simp only [tick, tick_res b hwf]

lemma tick_population (b : Board) (hwf : WF b) :
    (tick b).population = ((pairs b.size_y.toNat b.size_x.toNat).filter
      (fun yx => decide (nextCell b (yx.2 : Int) (yx.1 : Int) = 1))).length := by
  simp only [tick, tick_res b hwf]

lemma tick_size_x (b : Board) : (tick b).size_x = b.size_x := rfl

lemma tick_size_y (b : Board) : (tick b).size_y = b.size_y := rfl

lemma tick_next_board (b : Board) : (tick b).next_board = b.board := rfl

lemma tick_population_eq (b : Board) (hwf : WF b) :
    (tick b).population = countAlive (tick b).board := by
  rw [tick_board b hwf, tick_population b hwf, countAlive_grid]

lemma WF_tick (b : Board) (hwf : WF b) : WF (tick b) := by
  have hb := tick_board b hwf
  obtain ⟨h1, h2, h3, h4, h5, h6, h7, h8⟩ := hwf
  refine ⟨h1, h2, h3, h4, ?_, ?_, ?_, ?_⟩
  · rw [tick_size_y, hb]; simp
  · rw [tick_size_x, hb]
    intro row hrow
    rcases List.mem_map.mp hrow with ⟨a, _, ha⟩
    rw [← ha]; simp
  · rw [tick_size_y, tick_next_board]; exact h5
  · rw [tick_size_x, tick_next_board]; exact h6

lemma Binary_tick (b : Board) (hwf : WF b) : Binary (tick b).board := by
  rw [tick_board b hwf]
  intro row hrow c hc
  rcases List.mem_map.mp hrow with ⟨a, _, ha⟩
  rw [← ha] at hc
  rcases List.mem_map.mp hc with ⟨m, _, hm⟩
  rw [← hm]
  exact nextCell_binary b _ _

lemma map_range_const {α : Type} (n : Nat) (a : α) :
    (List.range n).map (fun _ => a) = List.replicate n a := by
  induction n with
  | zero => simp
  | succ m ih => rw [List.range_succ, List.map_append, ih]; simp [List.replicate_succ']

lemma clear_board_eq (b : Board) (hwf : WF b) :
    clear_board b = { b with
      board := List.replicate b.size_y.toNat (List.replicate b.size_x.toNat 0)
      population := 0 } := by
  obtain ⟨h1, h2, h3, h4, h5, h6, h7, h8⟩ := hwf
  unfold clear_board
  have hfold := foldl_set2_pairs (fun _ _ => (0 : Int)) b.board
    b.size_y.toNat b.size_x.toNat h5 h6
  rw [hfold, map_range_const, map_range_const]

lemma WF_clear (b : Board) (hwf : WF b) : WF (clear_board b) := by
  rw [clear_board_eq b hwf]
  obtain ⟨h1, h2, h3, h4, h5, h6, h7, h8⟩ := hwf
  refine ⟨h1, h2, h3, h4, by simp, ?_, h7, h8⟩
  intro row hrow
  rw [(List.mem_replicate.mp hrow).2]
  simp

lemma toggle_spec (b : Board) (x y : Int) (hwf : WF b)
    (hx1 : 0 ≤ x) (hx2 : x < b.size_x) (hy1 : 0 ≤ y) (hy2 : y < b.size_y) :
    player_toggle_cell b x y = some
      { b with
        board := set2 b.board y.toNat x.toNat
          (if getD2 b.board y.toNat x.toNat = 0 then 1 else 0)
        population := if getD2 b.board y.toNat x.toNat = 0
          then (b.population + 1) % u64Mod
          else (b.population + (u64Mod - 1)) % u64Mod } := by
  obtain ⟨h1, h2, h3, h4, h5, h6, h7, h8⟩ := hwf
  have hty : toUsize y = y.toNat := toUsize_of_nonneg hy1 (by omega)
  have htx : toUsize x = x.toNat := toUsize_of_nonneg hx1 (by omega)
  have hylen : y.toNat < b.board.length := by omega
  have hxlen : x.toNat < (b.board[y.toNat]).length := by
    rw [h6 _ (List.getElem_mem hylen)]; omega
  have hcell : getD2 b.board y.toNat x.toNat = b.board[y.toNat][x.toNat] := by
    unfold getD2
    rw [List.getD_eq_getElem b.board [] hylen, List.getD_eq_getElem _ 0 hxlen]
  unfold player_toggle_cell
  rw [hty, htx]
  rw [List.get?_eq_getElem?, List.getElem?_eq_getElem hylen]
  rw [Option.some_bind]
  rw [List.get?_eq_getElem?, List.getElem?_eq_getElem hxlen]
  by_cases hc : b.board[y.toNat][x.toNat] = 0
  · simp [hcell, hc]
  · simp [hcell, hc]

/-! Construction lemmas and the population invariant along reachable states. -/

lemma WF_new (sx sy : Int) (h1 : -128 ≤ sx) (h2 : sx ≤ 127)
    (h3 : -128 ≤ sy) (h4 : sy ≤ 127) : WF (Board.new sx sy) := by
  unfold Board.new make_board WF
  refine ⟨h1, h2, h3, h4, by simp, ?_, by simp, ?_⟩ <;>
    (intro row hrow; rw [(List.mem_replicate.mp hrow).2]; simp)

lemma Binary_new (sx sy : Int) : Binary (Board.new sx sy).board := by
  unfold Board.new make_board
  intro row hrow c hc
  rw [(List.mem_replicate.mp hrow).2] at hc
  left
  exact (List.mem_replicate.mp hc).2

lemma pop_new (sx sy : Int) :
    (Board.new sx sy).population = countAlive (Board.new sx sy).board := by
  unfold Board.new make_board
  simp [countAlive_replicate]

lemma Binary_clear (b : Board) (hwf : WF b) : Binary (clear_board b).board := by
  rw [clear_board_eq b hwf]
  intro row hrow c hc
  rw [(List.mem_replicate.mp hrow).2] at hc
  left
  exact (List.mem_replicate.mp hc).2

lemma getD2_binary {g : Cells} (hg : Binary g) (y x : Nat) :
    getD2 g y x = 0 ∨ getD2 g y x = 1 := by
  unfold getD2
  by_cases hy : y < g.length
  · rw [List.getD_eq_getElem g [] hy]
    by_cases hx : x < (g[y]).length
    · rw [List.getD_eq_getElem _ 0 hx]
      exact hg _ (List.getElem_mem hy) _ (List.getElem_mem hx)
    · rw [List.getD_eq_default _ _ (by omega)]
      left; rfl
  · rw [List.getD_eq_default g [] (by omega)]
    left; rfl

lemma toggle_invariant (b b2 : Board) (x y : Int) (hwf : WF b)
    (hb : Binary b.board) (hpop : b.population = countAlive b.board)
    (hx1 : 0 ≤ x) (hx2 : x < b.size_x) (hy1 : 0 ≤ y) (hy2 : y < b.size_y)
    (ht : player_toggle_cell b x y = some b2) :
    WF b2 ∧ Binary b2.board ∧ b2.population = countAlive b2.board := by
  rw [toggle_spec b x y hwf hx1 hx2 hy1 hy2] at ht
  have hb2 := Option.some.inj ht
  obtain ⟨h1, h2, h3, h4, h5, h6, h7, h8⟩ := hwf
  have hylen : y.toNat < b.board.length := by omega
  have hxlen : x.toNat < (b.board.getD y.toNat []).length := by
    rw [rowsLen_getD h6 hylen]; omega
  have hcap : countAlive b.board ≤ 127 * 127 := by
    have := countAlive_le h6
    have hle : b.board.length * b.size_x.toNat ≤ 127 * 127 := by
      rw [h5]
      have e1 : b.size_y.toNat ≤ 127 := by omega
      have e2 : b.size_x.toNat ≤ 127 := by omega
      exact Nat.mul_le_mul e1 e2
    omega
  subst hb2
  refine ⟨⟨h1, h2, h3, h4, ?_, ?_, h7, h8⟩, ?_, ?_⟩
  · simp only [length_set2]; exact h5
  · exact rowsLen_set2 h6 _ _ _
  · apply binary_set2 hb
    split <;> simp
  · simp only []
    rcases getD2_binary hb y.toNat x.toNat with hc | hc
    · rw [if_pos hc, if_pos hc]
      have hcnt := countAlive_set2 (v := (1 : Int)) hylen hxlen
      rw [hc] at hcnt
      norm_num at hcnt
      unfold u64Mod
      omega
    · rw [hc, if_neg (by norm_num), if_neg (by norm_num)]
      have hcnt := countAlive_set2 (v := (0 : Int)) hylen hxlen
      rw [hc] at hcnt
      norm_num at hcnt
      have hone : 1 ≤ countAlive b.board := countAlive_pos hylen hxlen hc
      unfold u64Mod
      omega

lemma reachable_invariant (b : Board) (hr : Reachable b) :
    WF b ∧ Binary b.board ∧ b.population = countAlive b.board := by
  induction hr with
  | new sx sy h1 h2 h3 h4 =>
    exact ⟨WF_new sx sy h1 h2 h3 h4, Binary_new sx sy, pop_new sx sy⟩
  | toggle b b2 x y hr hx1 hx2 hy1 hy2 ht ih =>
    exact toggle_invariant b b2 x y ih.1 ih.2.1 ih.2.2 hx1 hx2 hy1 hy2 ht
  | advance b hr ih =>
    exact ⟨WF_tick b ih.1, Binary_tick b ih.1, tick_population_eq b ih.1⟩
  | clear b hr ih =>
    refine ⟨WF_clear b ih.1, Binary_clear b ih.1, ?_⟩
    rw [clear_board_eq b ih.1]
    simp [countAlive_replicate]

/-! Remaining helpers for the claim theorems. -/

lemma getD2_grid (v : Nat → Nat → Int) {ny nx y x : Nat}
    (hy : y < ny) (hx : x < nx) :
    getD2 ((List.range ny).map (fun (y : Nat) =>
      (List.range nx).map (fun (x : Nat) => v y x))) y x = v y x := by
  unfold getD2
  rw [List.getD_eq_getElem _ [] (by simp [hy])]
  rw [List.getElem_map]
  rw [List.getD_eq_getElem _ 0 (by simp [hy, hx])]
  simp [List.getElem_map, List.getElem_range, hy, hx]

lemma getD2_replicate_zero (ny nx y x : Nat) :
    getD2 (List.replicate ny (List.replicate nx (0 : Int))) y x = 0 := by
  unfold getD2
  by_cases hy : y < ny
  · rw [List.getD_eq_getElem _ [] (by simp [hy]), List.getElem_replicate]
    by_cases hx : x < nx
    · rw [List.getD_eq_getElem _ 0 (by simp [hx]), List.getElem_replicate]
    · rw [List.getD_eq_default _ _ (by simp; omega)]
  · have hrow : (List.replicate ny (List.replicate nx (0 : Int))).getD y [] = [] :=
      List.getD_eq_default _ _ (by simp; omega)
    rw [hrow]
    rfl

lemma toggle_oob (b : Board) (x y : Int) (hwf : WF b)
    (hx1 : -128 ≤ x) (hx2 : x ≤ 127) (hy1 : -128 ≤ y) (hy2 : y ≤ 127)
    (hout : ¬(0 ≤ x ∧ x < b.size_x ∧ 0 ≤ y ∧ y < b.size_y)) :
    player_toggle_cell b x y = none := by
  obtain ⟨h1, h2, h3, h4, h5, h6, h7, h8⟩ := hwf
  unfold player_toggle_cell
  have hnone : (b.board.get? (toUsize y)).bind
      (fun row => row.get? (toUsize x)) = none := by
    by_cases hy : 0 ≤ y ∧ y < b.size_y
    · have hty : toUsize y = y.toNat := toUsize_of_nonneg hy.1 (by omega)
      have hylen : y.toNat < b.board.length := by omega
      rw [hty, List.get?_eq_getElem?, List.getElem?_eq_getElem hylen,
        Option.some_bind]
      have hrl : (b.board[y.toNat]).length = b.size_x.toNat :=
        h6 _ (List.getElem_mem hylen)
      have hxout : b.size_x.toNat ≤ toUsize x := by
        by_cases hx : 0 ≤ x
        · have hxs : ¬x < b.size_x := by tauto
          rw [toUsize_of_nonneg hx (by omega)]
          omega
        · have := toUsize_large hx1 (by omega)
          omega
      rw [List.get?_eq_getElem?]
      exact List.getElem?_eq_none (by omega)
    · have hyout : b.board.length ≤ toUsize y := by
        by_cases hy0 : 0 ≤ y
        · have hys : ¬y < b.size_y := by tauto
          rw [toUsize_of_nonneg hy0 (by omega)]
          omega
        · have := toUsize_large hy1 (by omega)
          omega
      rw [List.get?_eq_getElem?, List.getElem?_eq_none (by omega)]
      rfl
  rw [hnone]

lemma offs_bound {d : Int × Int} (hd : d ∈ neighbourOffsets) :
    -1 ≤ d.1 ∧ d.1 ≤ 1 ∧ -1 ≤ d.2 ∧ d.2 ≤ 1 := by
  fin_cases hd <;> norm_num

instance Binary.decidable (g : Cells) : Decidable (Binary g) := by
  unfold Binary; infer_instance

instance WF.decidable (b : Board) : Decidable (WF b) := by
  unfold WF; infer_instance

/-! Claim theorems. -/

/-- C1: for every reachable Grid state — any sequence of in-bounds toggles,
advances and clears applied to a freshly constructed grid — the population
field equals the exact number of alive cells obtained by scanning the
cells array. -/
theorem C1_population_invariant (b : Board) (hr : Reachable b) :
    b.population = countAlive b.board :=
  (reachable_invariant b hr).2.2

/-- C1 witness: the invariant instantiated on a concrete reachable state,
one tick after construction of a 3 x 3 grid. -/
theorem C1_population_invariant_witness :
    (tick (Board.new 3 3)).population = countAlive (tick (Board.new 3 3)).board :=
  C1_population_invariant _ (Reachable.advance _
    (Reachable.new 3 3 (by decide) (by decide) (by decide) (by decide)))

/-- C3: for in-bounds coordinates, get_neighbour_count returns the number
of alive cells among the at most 8 offset positions that lie within grid
bounds, out-of-bounds positions contributing nothing; a corner cell sees
at most 3 contributing positions; the centre of a fully alive 3 x 3 grid
counts 8 neighbours, and killing one corner drops that count to 7. -/
theorem C3_neighbour_count :
    (∀ b x y, Binary b.board →
      0 ≤ x → x < b.size_x → 0 ≤ y → y < b.size_y →
      get_neighbour_count b x y = (specNeighbourCount b x y : Int)) ∧
    (∀ b, Binary b.board → get_neighbour_count b 0 0 ≤ 3) ∧
    get_neighbour_count full3 1 1 = 8 ∧
    get_neighbour_count full3corner 1 1 = 7 := by
  refine ⟨?_, ?_, by decide, by decide⟩
  · intro b x y hb _ _ _ _
    exact get_neighbour_count_eq_spec b hb x y
  · intro b hb
    rw [get_neighbour_count_eq_spec b hb 0 0]
    unfold specNeighbourCount neighbourOffsets
    simp only [List.filter_cons, List.filter_nil]
    norm_num
    split_ifs <;> simp

/-- C3 witness: the equality between get_neighbour_count and its
specification count, instantiated at the centre of the fully alive
3 x 3 board. -/
theorem C3_neighbour_count_witness :
    get_neighbour_count full3 1 1 = (specNeighbourCount full3 1 1 : Int) :=
  C3_neighbour_count.1 full3 1 1 (by decide) (by decide) (by decide)
    (by decide) (by decide)

/-- C4 counterexample: the claim says neighbor_count fails loudly on an
out-of-bounds coordinate; instead, at the out-of-bounds coordinate (3, 1)
of the fully alive 3 x 3 board, get_neighbour_count silently returns 3,
the number of alive in-bounds cells adjacent to that position — no error
condition of any kind is signalled. -/
theorem C4_counterexample :
    ¬((3 : Int) < full3.size_x) ∧ get_neighbour_count full3 3 1 = 3 := by
  decide

/-- C4 amended: toggle does fail loudly (an index panic, modelled none) for
every out-of-bounds i8 coordinate; get_neighbour_count, however, never
fails: at every coordinate, in bounds or not, it silently returns the
count of alive cells among the in-bounds neighbour offsets. -/
theorem C4_oob_behaviour :
    (∀ b x y, WF b → -128 ≤ x → x ≤ 127 → -128 ≤ y → y ≤ 127 →
      ¬(0 ≤ x ∧ x < b.size_x ∧ 0 ≤ y ∧ y < b.size_y) →
      player_toggle_cell b x y = none) ∧
    (∀ b x y, Binary b.board →
      get_neighbour_count b x y = (specNeighbourCount b x y : Int)) :=
  ⟨toggle_oob, fun b x y hb => get_neighbour_count_eq_spec b hb x y⟩

/-- C4 witness: both halves instantiated at out-of-bounds coordinates of
the 3 x 3 board. -/
theorem C4_oob_behaviour_witness :
    player_toggle_cell full3 3 1 = none ∧
    get_neighbour_count full3 3 1 = (specNeighbourCount full3 3 1 : Int) :=
  ⟨C4_oob_behaviour.1 full3 3 1 (by decide) (by decide) (by decide)
      (by decide) (by decide) (by decide),
    C4_oob_behaviour.2 full3 3 1 (by decide)⟩

/-- C5 counterexample: Board::new performs no validation: it constructs
Board values with width -1 and width 0 instead of rejecting non-positive
dimensions, so grids with non-positive dimensions do exist. -/
theorem C5_counterexample :
    (Board.new (-1) 5).size_x = -1 ∧ (Board.new 0 4).size_x = 0 := by
  decide

/-- C5 amended: construction accepts any i8 dimensions without validation
(non-positive dimensions yield a degenerate grid with no cell storage);
for every dimension pair the recorded sizes are the arguments, population
is 0 and every in-bounds cell is dead. -/
theorem C5_new_unvalidated (sx sy : Int) (_hs1 : -128 ≤ sx) (_hs2 : sx ≤ 127)
    (_hs3 : -128 ≤ sy) (_hs4 : sy ≤ 127) :
    (Board.new sx sy).size_x = sx ∧ (Board.new sx sy).size_y = sy ∧
    (Board.new sx sy).population = 0 ∧
    ∀ x y : Int, 0 ≤ x → x < sx → 0 ≤ y → y < sy →
      cellAt (Board.new sx sy).board x y = 0 := by
  refine ⟨rfl, rfl, rfl, ?_⟩
  intro x y _ _ _ _
  unfold Board.new make_board cellAt
  exact getD2_replicate_zero _ _ _ _

/-- C5 witness: the amended construction facts instantiated at a 3 x 3
grid and its (0, 0) cell. -/
theorem C5_new_unvalidated_witness :
    cellAt (Board.new 3 3).board 0 0 = 0 :=
  (C5_new_unvalidated 3 3 (by decide) (by decide) (by decide)
    (by decide)).2.2.2 0 0 (by decide) (by decide) (by decide) (by decide)

/-- C6: on a 5 x 5 grid with exactly row 2, columns 1..3 alive
(population 3), one tick yields exactly column 2, rows 1..3 alive with
population 3, and a second tick restores the original horizontal
configuration with population 3 (period-2 blinker). -/
theorem C6_blinker :
    (tick blinkerH).board =
      [[0, 0, 0, 0, 0], [0, 0, 1, 0, 0], [0, 0, 1, 0, 0],
       [0, 0, 1, 0, 0], [0, 0, 0, 0, 0]] ∧
    (tick blinkerH).population = 3 ∧
    (tick (tick blinkerH)).board = blinkerH.board ∧
    (tick (tick blinkerH)).population = 3 := by
  decide

/-- C2: tick computes each cell of the next generation from the
pre-advance state only, by the fixed rule: an alive cell survives iff its
neighbour count is exactly 2 or 3, a dead cell is born iff it is exactly
3, and otherwise the cell is dead — i.e. every cell of the post-tick board
is the specification-level Life function of the pre-tick snapshot. -/
theorem C2_tick_life_rule (b : Board) (x y : Int) (hwf : WF b)
    (hb : Binary b.board)
    (hx1 : 0 ≤ x) (hx2 : x < b.size_x) (hy1 : 0 ≤ y) (hy2 : y < b.size_y) :
    cellAt (tick b).board x y =
      if lifeRule (decide (cellAt b.board x y = 1)) (specNeighbourCount b x y)
      then 1 else 0 := by
  have hb2 := tick_board b hwf
  obtain ⟨h1, h2, h3, h4, h5, h6, h7, h8⟩ := hwf
  have hty : toUsize y = y.toNat := toUsize_of_nonneg hy1 (by omega)
  have htx : toUsize x = x.toNat := toUsize_of_nonneg hx1 (by omega)
  have hyn : y.toNat < b.size_y.toNat := by omega
  have hxn : x.toNat < b.size_x.toNat := by omega
  have hcast : cellAt (tick b).board x y = nextCell b x y := by
    unfold cellAt
    rw [hty, htx, hb2,
      getD2_grid (fun (y x : Nat) => nextCell b (x : Int) (y : Int)) hyn hxn,
      Int.toNat_of_nonneg hx1, Int.toNat_of_nonneg hy1]
  rw [hcast]
  unfold nextCell lifeRule
  rw [get_neighbour_count_eq_spec b hb x y]
  rcases cellAt_binary hb x y with hc | hc
  · rw [hc]
    norm_num
    norm_cast
  · rw [hc]
    norm_num
    norm_cast

/-- C2 witness: the rule equation instantiated at the centre cell of the
fully alive 3 x 3 board. -/
theorem C2_tick_life_rule_witness :
    cellAt (tick full3).board 1 1 =
      if lifeRule (decide (cellAt full3.board 1 1 = 1))
        (specNeighbourCount full3 1 1) then 1 else 0 :=
  C2_tick_life_rule full3 1 1 (by decide) (by decide) (by decide) (by decide)
    (by decide) (by decide)

/-- C7: for every valid grid state and in-bounds coordinate, toggling the
same cell twice restores the prior cell state and the prior population;
each call flips the cell, a dead-to-alive flip incrementing population by
1 and an alive-to-dead flip decrementing it by 1. -/
theorem C7_toggle_twice (b : Board) (x y : Int) (hwf : WF b)
    (hb : Binary b.board) (hpop : b.population = countAlive b.board)
    (hx1 : 0 ≤ x) (hx2 : x < b.size_x) (hy1 : 0 ≤ y) (hy2 : y < b.size_y) :
    ∃ b1 b2, player_toggle_cell b x y = some b1 ∧
      player_toggle_cell b1 x y = some b2 ∧
      cellAt b1.board x y = (if cellAt b.board x y = 0 then 1 else 0) ∧
      (cellAt b.board x y = 0 → b1.population = b.population + 1) ∧
      (cellAt b.board x y = 1 → b1.population + 1 = b.population) ∧
      cellAt b2.board x y = cellAt b.board x y ∧
      b2.population = b.population := by
  have hwf0 := hwf
  obtain ⟨h1, h2, h3, h4, h5, h6, h7, h8⟩ := hwf
  have hty : toUsize y = y.toNat := toUsize_of_nonneg hy1 (by omega)
  have htx : toUsize x = x.toNat := toUsize_of_nonneg hx1 (by omega)
  have hylen : y.toNat < b.board.length := by omega
  have hxn : x.toNat < b.size_x.toNat := by omega
  have hxlen : x.toNat < (b.board.getD y.toNat []).length := by
    rw [rowsLen_getD h6 hylen]; omega
  have hcellAt : cellAt b.board x y = getD2 b.board y.toNat x.toNat := by
    unfold cellAt; rw [hty, htx]
  have hcap : countAlive b.board ≤ 127 * 127 := by
    have hca := countAlive_le h6
    have e1 : b.size_y.toNat ≤ 127 := by omega
    have e2 : b.size_x.toNat ≤ 127 := by omega
    have e3 : b.board.length * b.size_x.toNat ≤ 127 * 127 := by
      rw [h5]; exact Nat.mul_le_mul e1 e2
    omega
  have ht1 := toggle_spec b x y hwf0 hx1 hx2 hy1 hy2
  rcases getD2_binary hb y.toNat x.toNat with hc | hc
  · rw [hc, if_pos rfl, if_pos rfl] at ht1
    have hwf1 : WF { b with
        board := set2 b.board y.toNat x.toNat 1
        population := (b.population + 1) % u64Mod } := by
      refine ⟨h1, h2, h3, h4, ?_, ?_, h7, h8⟩
      · simp only [length_set2]; exact h5
      · exact rowsLen_set2 h6 _ _ _
    have ht2 := toggle_spec _ x y hwf1 hx1 hx2 hy1 hy2
    dsimp only at ht2
    have hread : getD2 (set2 b.board y.toNat x.toNat 1) y.toNat x.toNat = 1 :=
      getD2_set2_self hylen hxlen
    rw [hread, if_neg (by decide), if_neg (by decide)] at ht2
    have hylen1 : y.toNat < (set2 b.board y.toNat x.toNat 1).length := by
      rw [length_set2]; exact hylen
    have hxlen1 : x.toNat <
        ((set2 b.board y.toNat x.toNat 1).getD y.toNat []).length := by
      rw [rowsLen_getD (rowsLen_set2 h6 y.toNat x.toNat 1) hylen1]; omega
    refine ⟨_, _, ht1, ht2, ?_, ?_, ?_, ?_, ?_⟩
    · unfold cellAt
      rw [hty, htx]
      dsimp only
      rw [hread, hc, if_pos rfl]
    · intro _
      dsimp only
      unfold u64Mod
      omega
    · intro hcon
      rw [hcellAt, hc] at hcon
      exact absurd hcon (by decide)
    · unfold cellAt
      rw [hty, htx]
      dsimp only
      rw [getD2_set2_self hylen1 hxlen1, hc]
    · dsimp only
      unfold u64Mod
      omega
  · rw [hc, if_neg (by decide), if_neg (by decide)] at ht1
    have hone : 1 ≤ countAlive b.board := countAlive_pos hylen hxlen hc
    have hwf1 : WF { b with
        board := set2 b.board y.toNat x.toNat 0
        population := (b.population + (u64Mod - 1)) % u64Mod } := by
      refine ⟨h1, h2, h3, h4, ?_, ?_, h7, h8⟩
      · simp only [length_set2]; exact h5
      · exact rowsLen_set2 h6 _ _ _
    have ht2 := toggle_spec _ x y hwf1 hx1 hx2 hy1 hy2
    dsimp only at ht2
    have hread : getD2 (set2 b.board y.toNat x.toNat 0) y.toNat x.toNat = 0 :=
      getD2_set2_self hylen hxlen
    rw [hread, if_pos rfl, if_pos rfl] at ht2
    have hylen1 : y.toNat < (set2 b.board y.toNat x.toNat 0).length := by
      rw [length_set2]; exact hylen
    have hxlen1 : x.toNat <
        ((set2 b.board y.toNat x.toNat 0).getD y.toNat []).length := by
      rw [rowsLen_getD (rowsLen_set2 h6 y.toNat x.toNat 0) hylen1]; omega
    refine ⟨_, _, ht1, ht2, ?_, ?_, ?_, ?_, ?_⟩
    · unfold cellAt
      rw [hty, htx]
      dsimp only
      rw [hread, hc, if_neg (by decide)]
    · intro hcon
      rw [hcellAt, hc] at hcon
      exact absurd hcon (by decide)
    · intro _
      dsimp only
      unfold u64Mod
      omega
    · unfold cellAt
      rw [hty, htx]
      dsimp only
      rw [getD2_set2_self hylen1 hxlen1, hc]
    · dsimp only
      unfold u64Mod
      omega

/-- C7 witness: the double-toggle facts instantiated at the centre of the
fully alive 3 x 3 board. -/
theorem C7_toggle_twice_witness :
    ∃ b1 b2, player_toggle_cell full3 1 1 = some b1 ∧
      player_toggle_cell b1 1 1 = some b2 ∧
      cellAt b1.board 1 1 = (if cellAt full3.board 1 1 = 0 then 1 else 0) ∧
      (cellAt full3.board 1 1 = 0 → b1.population = full3.population + 1) ∧
      (cellAt full3.board 1 1 = 1 → b1.population + 1 = full3.population) ∧
      cellAt b2.board 1 1 = cellAt full3.board 1 1 ∧
      b2.population = full3.population :=
  C7_toggle_twice full3 1 1 (by decide) (by decide) (by decide) (by decide)
    (by decide) (by decide) (by decide)

/-- C8: for every valid grid state and in-bounds coordinate, toggle
modifies only the addressed cell and the population counter: width,
height, the scratch buffer and every other in-bounds cell are unchanged,
and the call has no other effect on the state. -/
theorem C8_toggle_frame (b : Board) (x y : Int) (hwf : WF b)
    (_hb : Binary b.board) (_hpop : b.population = countAlive b.board)
    (hx1 : 0 ≤ x) (hx2 : x < b.size_x) (hy1 : 0 ≤ y) (hy2 : y < b.size_y) :
    ∃ b2, player_toggle_cell b x y = some b2 ∧
      b2.size_x = b.size_x ∧ b2.size_y = b.size_y ∧
      b2.next_board = b.next_board ∧
      (∀ x2 y2 : Int, 0 ≤ x2 → x2 < b.size_x → 0 ≤ y2 → y2 < b.size_y →
        ¬(x2 = x ∧ y2 = y) →
        cellAt b2.board x2 y2 = cellAt b.board x2 y2) := by
  have ht1 := toggle_spec b x y hwf hx1 hx2 hy1 hy2
  obtain ⟨h1, h2, h3, h4, h5, h6, h7, h8⟩ := hwf
  refine ⟨_, ht1, rfl, rfl, rfl, ?_⟩
  intro x2 y2 hx21 hx22 hy21 hy22 hne
  unfold cellAt
  rw [toUsize_of_nonneg hx21 (by omega), toUsize_of_nonneg hy21 (by omega)]
  dsimp only
  have hne2 : ¬(y.toNat = y2.toNat ∧ x.toNat = x2.toNat) := by
    intro hcon
    exact hne ⟨by omega, by omega⟩
  rw [getD2_set2_ne hne2]

/-- C8 witness: the frame facts instantiated at the centre cell of the
fully alive 3 x 3 board, observed at the corner cell (0, 0). -/
theorem C8_toggle_frame_witness :
    ∃ b2, player_toggle_cell full3 1 1 = some b2 ∧
      b2.size_x = full3.size_x ∧ b2.size_y = full3.size_y ∧
      b2.next_board = full3.next_board ∧
      (∀ x2 y2 : Int, 0 ≤ x2 → x2 < full3.size_x → 0 ≤ y2 →
        y2 < full3.size_y → ¬(x2 = 1 ∧ y2 = 1) →
        cellAt b2.board x2 y2 = cellAt full3.board x2 y2) :=
  C8_toggle_frame full3 1 1 (by decide) (by decide) (by decide) (by decide)
    (by decide) (by decide) (by decide)

/-- C9: clear sets every in-bounds cell to dead and the population to 0,
and clearing twice yields exactly the same state as clearing once. -/
theorem C9_clear (b : Board) (hwf : WF b) :
    (∀ x y : Int, 0 ≤ x → x < b.size_x → 0 ≤ y → y < b.size_y →
      cellAt (clear_board b).board x y = 0) ∧
    (clear_board b).population = 0 ∧
    clear_board (clear_board b) = clear_board b := by
  have hc := clear_board_eq b hwf
  refine ⟨?_, ?_, ?_⟩
  · intro x y _ _ _ _
    rw [hc]
    unfold cellAt
    dsimp only
    exact getD2_replicate_zero _ _ _ _
  · rw [hc]
  · rw [clear_board_eq _ (WF_clear b hwf), hc]

/-- C9 witness: the clear facts instantiated on the fully alive 3 x 3
board. -/
theorem C9_clear_witness :
    cellAt (clear_board full3).board 0 0 = 0 ∧
    (clear_board full3).population = 0 ∧
    clear_board (clear_board full3) = clear_board full3 :=
  ⟨(C9_clear full3 (by decide)).1 0 0 (by decide) (by decide) (by decide)
      (by decide),
    (C9_clear full3 (by decide)).2.1,
    (C9_clear full3 (by decide)).2.2⟩

/-- C10: on a rectangular binary board with positive i8 dimensions and an
in-bounds coordinate, every neighbour access get_neighbour_count performs
is in range of the stored arrays, the coordinate arithmetic x + dx and
y + dy stays inside the i8 range, and the returned count lies between 0
and 8. -/
theorem C10_neighbour_safety (b : Board) (x y : Int) (hwf : WF b)
    (hb : Binary b.board) (_hsx : 0 < b.size_x) (_hsy : 0 < b.size_y)
    (hx1 : 0 ≤ x) (hx2 : x < b.size_x) (hy1 : 0 ≤ y) (hy2 : y < b.size_y) :
    (∀ d ∈ neighbourOffsets,
      -128 ≤ x + d.1 ∧ x + d.1 ≤ 127 ∧ -128 ≤ y + d.2 ∧ y + d.2 ≤ 127) ∧
    (∀ d ∈ neighbourOffsets,
      0 ≤ x + d.1 → x + d.1 < b.size_x → 0 ≤ y + d.2 → y + d.2 < b.size_y →
      (y + d.2).toNat < b.board.length ∧
      (x + d.1).toNat < (b.board.getD (y + d.2).toNat []).length) ∧
    0 ≤ get_neighbour_count b x y ∧ get_neighbour_count b x y ≤ 8 := by
  obtain ⟨h1, h2, h3, h4, h5, h6, h7, h8⟩ := hwf
  refine ⟨?_, ?_, ?_, ?_⟩
  · intro d hd
    have := offs_bound hd
    omega
  · intro d hd hg1 hg2 hg3 hg4
    have hylen : (y + d.2).toNat < b.board.length := by omega
    refine ⟨hylen, ?_⟩
    rw [rowsLen_getD h6 hylen]
    omega
  · rw [get_neighbour_count_eq_spec b hb x y]
    exact_mod_cast Nat.zero_le _
  · rw [get_neighbour_count_eq_spec b hb x y]
    exact_mod_cast specNeighbourCount_le b x y

/-- C10 witness: the safety facts instantiated at the centre of the fully
alive 3 x 3 board. -/
theorem C10_neighbour_safety_witness :
    0 ≤ get_neighbour_count full3 1 1 ∧ get_neighbour_count full3 1 1 ≤ 8 :=
  ⟨(C10_neighbour_safety full3 1 1 (by decide) (by decide) (by decide)
      (by decide) (by decide) (by decide) (by decide) (by decide)).2.2.1,
    (C10_neighbour_safety full3 1 1 (by decide) (by decide) (by decide)
      (by decide) (by decide) (by decide) (by decide) (by decide)).2.2.2⟩
